import Mathlib

/-!
Shallow embedding of `src/python/transfermatrix_varyThickness.py`
(transfer-matrix optical model with a thickness sweep), together with
theorems settling the frozen claims about it.

Conventions:
* machine floats are embedded as exact numbers: `ℚ` for the purely
  rational bookkeeping (grids, cumulative sums, position→layer mapping),
  `ℝ`/`ℂ` for the optics (phases, Fresnel coefficients, matrices);
* 2×2 complex matrices are `Matrix (Fin 2) (Fin 2) ℂ`;
* the per-layer data (refractive index, thickness) is passed as functions
  of the layer index, the number of layers `N` standing for `len(t)`.
-/

namespace TM

/-! ### Discretization of the device cross-section (ℚ part)

`np.cumsum t`, the sample grid `np.arange`, and the position→layer map
`x_mat = sum(comp1 > comp2, 0)` (the count of cumulative sums strictly
below a sample position). -/

/-- Embeds `np.cumsum(t)`: the list of partial sums `t[0], t[0]+t[1], ...`. -/
def cumsum : List ℚ → List ℚ
  | [] => []
  | a :: rest => a :: (cumsum rest).map (fun c => a + c)

/-- Embeds `np.arange(start, stop, step)` for `step > 0`:
`start + i*step` for `0 ≤ i < ⌈(stop - start)/step⌉`. -/
def arange (start stop step : ℚ) : List ℚ :=
  (List.range (⌈(stop - start) / step⌉).toNat).map (fun i : ℕ => start + (i : ℚ) * step)

/-- Embeds `x_mat`, the layer index assigned to the sample position `x`:
`sum(comp1 > comp2, 0)` counts, for a fixed position, how many entries of
`t_cumsum` lie strictly below it. -/
def x_mat (t : List ℚ) (x : ℚ) : ℕ :=
  (cumsum t).countP (fun c => decide (c < x))

/-- Embeds the set of layers visited by the field loop
`for material in np.arange(1, len(t))`: the indices `1, ..., len(t) - 1`. -/
def fieldLayers (N : ℕ) : List ℕ :=
  List.Ico 1 N

/-- A sample position `x` receives an entry in the field array `E` exactly
when the loop over `fieldLayers` reaches the layer `x_mat` assigns it to
(the loop body writes `E[x_indices, ind]` for `x_indices = (x_mat == material)`). -/
def fieldAssigned (t : List ℚ) (x : ℚ) : Prop :=
  x_mat t x ∈ fieldLayers t.length

instance (t : List ℚ) (x : ℚ) : Decidable (fieldAssigned t x) := by
  unfold fieldAssigned; infer_instance

/-! ### The thickness sweep (ℚ part)

`varyThickness = np.arange(varyStart, varyFinish + varyStep, varyStep)`,
and the in-place mutation `t[layerVaried] = varyThickness[thickInd]`
performed at the top of each sweep step on the shared list `t`. -/

/-- Embeds `varyThickness`: the sequence of swept thicknesses. -/
def varyThicknessList (varyStart varyFinish varyStep : ℚ) : List ℚ :=
  arange varyStart (varyFinish + varyStep) varyStep

/-- Embeds `Jsc = 0 * varyThickness`: one output slot per sweep step. -/
def JscInit (vs : List ℚ) : List ℚ :=
  vs.map (fun _ => 0)

/-- Embeds the write `t[layerVaried] = v` performed at the top of a sweep
step: the configuration the step then reads. -/
def stepConfig (tc : List ℚ) (layerVaried : ℕ) (v : ℚ) : List ℚ :=
  tc.set layerVaried v

/-- The state of the shared list `t` after the writes of the steps for the
swept values `vs` (the list is mutated in place, so each step hands its
mutated `t` to the next). -/
def stateAfter (t0 : List ℚ) (layerVaried : ℕ) (vs : List ℚ) : List ℚ :=
  vs.foldl (fun tc v => stepConfig tc layerVaried v) t0

/-! ### Wavelength-integration step (ℚ part)

Embeds lines 225–228:
`lambda_step = 1` when `len(lambdas) == 1`, otherwise
`(sorted(lambdas)[-1] - sorted(lambdas)[0]) / (len(lambdas) - 1)`. -/

/-- Embeds Python `sorted` on the wavelength grid (a stable sort by `≤`). -/
def sortedGrid (ls : List ℚ) : List ℚ :=
  ls.insertionSort (· ≤ ·)

/-- Embeds the effective `lambda_step` used by the generation integrator. -/
def effLambdaStep (ls : List ℚ) : ℚ :=
  if ls.length = 1 then 1
  else ((sortedGrid ls).getLastD 0 - (sortedGrid ls).headD 0) / ((ls.length : ℚ) - 1)

/-! ### Transfer matrices (ℂ part) -/

/-- 2×2 complex matrices, the type of all transfer matrices. -/
abbrev Mat2 := Matrix (Fin 2) (Fin 2) ℂ

/-- Embeds `I_mat(n1, n2)` (lines 116–122): Fresnel coefficients
`r = (n1 - n2)/(n1 + n2)`, `t = 2*n1/(n1 + n2)` and the matrix
`[[1, r], [r, 1]] / t` (elementwise division by the scalar `t`). -/
noncomputable def I_mat (n1 n2 : ℂ) : Mat2 :=
  ((2 * n1) / (n1 + n2))⁻¹ •
    !![1, (n1 - n2) / (n1 + n2); (n1 - n2) / (n1 + n2), 1]

/-- Embeds `L_mat(n, d, l)` (lines 125–132): the phase
`xi = 2*pi*d*n/l` and the matrix `diag(exp(-i*xi), exp(+i*xi))`
(`complex(0, w)` in the source is `w * I`). -/
noncomputable def L_mat (n : ℂ) (d l : ℝ) : Mat2 :=
  !![Complex.exp (-(((2 * Real.pi * d : ℝ) : ℂ) * n / (l : ℂ)) * Complex.I), 0;
     0, Complex.exp ((((2 * Real.pi * d : ℝ) : ℂ) * n / (l : ℂ)) * Complex.I)]

/-- Embeds the system-matrix loop of the coherent stack solver
(lines 180–184): `S = I_mat(n[0], n[1])`, then for
`matind in np.arange(1, len(t) - 1)` (that is `1, ..., N - 2`):
`S = S * L_mat(n[matind], t[matind], l) * I_mat(n[matind], n[matind+1])`. -/
noncomputable def S_mat (n : ℕ → ℂ) (t : ℕ → ℝ) (N : ℕ) (l : ℝ) : Mat2 :=
  (List.Ico 1 (N - 1)).foldl
    (fun S m => S * L_mat (n m) (t m) l * I_mat (n m) (n (m + 1)))
    (I_mat (n 0) (n 1))

/-- Embeds `R[ind] = abs(S[1,0]/S[0,0])**2` (line 185): the total
reflectance at one wavelength. -/
noncomputable def R_coeff (n : ℕ → ℂ) (t : ℕ → ℝ) (N : ℕ) (l : ℝ) : ℝ :=
  (Complex.abs (S_mat n t N l 1 0 / S_mat n t N l 0 0)) ^ 2

/-- Embeds `R_glass = abs((1 - n[0,:])/(1 + n[0,:]))**2` (line 156),
computed from the layer-0 index only, before the sweep. -/
noncomputable def R_glass (n0 : ℂ) : ℝ :=
  (Complex.abs ((1 - n0) / (1 + n0))) ^ 2

/-- Embeds `T_glass = abs((4.0*1.0*n[0,:])/((1 + n[0,:])**2))` (line 155),
computed from the layer-0 index only, before the sweep. -/
noncomputable def T_glass (n0 : ℂ) : ℝ :=
  Complex.abs ((4 * 1 * n0) / ((1 + n0) ^ 2))

/-- Embeds `T[ind] = abs(2/(1 + n[0,ind])) / sqrt(1 - R_glass[ind]*R[ind])`
(line 186), as recomputed inside every sweep step: it takes the full
thickness configuration `t` through the reflectance `R`. -/
noncomputable def T_coeff (n : ℕ → ℂ) (t : ℕ → ℝ) (N : ℕ) (l : ℝ) : ℝ :=
  Complex.abs (2 / (1 + n 0)) / Real.sqrt (1 - R_glass (n 0) * R_coeff n t N l)

/-- A concrete three-layer stack of refractive indices: `n = 3, 2, 1`. -/
noncomputable def nEx : ℕ → ℂ :=
  fun m => if m = 0 then 3 else if m = 1 then 2 else 1

/-- A concrete thickness configuration for `nEx` in which the middle
layer has the swept thickness `d`. -/
def tEx (d : ℝ) : ℕ → ℝ :=
  fun m => if m = 1 then d else 0

/-! ### Helper lemmas -/

lemma cumsum_length (t : List ℚ) : (cumsum t).length = t.length := by
  induction t with
  | nil => rfl
  | cons a rest ih => simp [cumsum, ih]

lemma cumsum_nonneg (t : List ℚ) (h : ∀ a ∈ t, 0 ≤ a) :
    ∀ c ∈ cumsum t, 0 ≤ c := by
  induction t with
  | nil => simp [cumsum]
  | cons a rest ih =>
      intro c hc
      simp only [cumsum, List.mem_cons, List.mem_map] at hc
      rcases hc with rfl | ⟨c', hc', rfl⟩
      · exact h c (List.mem_cons_self _ _)
      · have h0 : 0 ≤ a := h a (List.mem_cons_self _ _)
        have h1 : 0 ≤ c' := ih (fun b hb => h b (List.mem_cons_of_mem _ hb)) c' hc'
        linarith

lemma cumsum_sorted (t : List ℚ) (h : ∀ a ∈ t, 0 ≤ a) :
    (cumsum t).Sorted (· ≤ ·) := by
  induction t with
  | nil => simp [cumsum]
  | cons a rest ih =>
      have hrest : ∀ b ∈ rest, 0 ≤ b := fun b hb => h b (List.mem_cons_of_mem _ hb)
      rw [cumsum, List.sorted_cons]
      constructor
      · intro b hb
        simp only [List.mem_map] at hb
        obtain ⟨c, hc, rfl⟩ := hb
        have := cumsum_nonneg rest hrest c hc
        linarith
      · exact List.Pairwise.map _ (fun x y hxy => add_le_add_left hxy a) (ih hrest)

lemma sorted_countP_lt_eq_findIdx (L : List ℚ) (x : ℚ)
    (hs : L.Sorted (· ≤ ·)) (hex : ∃ c ∈ L, x ≤ c) :
    L.countP (fun c => decide (c < x)) = L.findIdx (fun c => decide (x ≤ c)) := by
  induction L with
  | nil => simp at hex
  | cons c L ih =>
      rw [List.sorted_cons] at hs
      by_cases hcx : x ≤ c
      · have hzero : List.countP (fun c => decide (c < x)) L = 0 :=
          List.countP_eq_zero.mpr
            (fun b hb => by simp [not_lt.mpr (hcx.trans (hs.1 b hb))])
        simp [List.countP_cons, List.findIdx_cons, not_lt.mpr hcx, hcx, hzero]
      · push_neg at hcx
        have hex' : ∃ c' ∈ L, x ≤ c' := by
          obtain ⟨c', hc', hxc'⟩ := hex
          rcases List.mem_cons.mp hc' with rfl | hmem
          · exact absurd hxc' (not_le.mpr hcx)
          · exact ⟨c', hmem, hxc'⟩
        simp [List.countP_cons, List.findIdx_cons, hcx, not_le.mpr hcx, ih hs.2 hex']

lemma arange_length (a b s : ℚ) : (arange a b s).length = (⌈(b - a) / s⌉).toNat := by
  simp [arange]

lemma arange_mem (a b s : ℚ) (i : ℕ) (h : i < (⌈(b - a) / s⌉).toNat) :
    a + (i : ℚ) * s ∈ arange a b s :=
  List.mem_map.mpr ⟨i, List.mem_range.mpr h, rfl⟩

lemma foldl_mul_mul_eq {M : Type*} [Monoid M] (f g : ℕ → M) (L : List ℕ) :
    ∀ a : M, L.foldl (fun s m => s * f m * g m) a = a * (L.map (fun m => f m * g m)).prod := by
  induction L with
  | nil => intro a; simp
  | cons m L ih =>
      intro a
      simp only [List.foldl_cons, List.map_cons, List.prod_cons]
      rw [ih]
      simp [mul_assoc]

lemma L_mat_d0 (n : ℂ) (l : ℝ) : L_mat n 0 l = 1 := by
  simp [L_mat, Matrix.one_fin_two]

lemma I_mat_32 : I_mat 3 2 = !![5/6, 1/6; 1/6, 5/6] := by
  ext i j
  fin_cases i <;> fin_cases j <;>
    norm_num [I_mat, Matrix.smul_apply, smul_eq_mul]

lemma I_mat_21 : I_mat 2 1 = !![3/4, 1/4; 1/4, 3/4] := by
  ext i j
  fin_cases i <;> fin_cases j <;>
    norm_num [I_mat, Matrix.smul_apply, smul_eq_mul]

lemma L_mat_218 : L_mat 2 1 8 = !![-Complex.I, 0; 0, Complex.I] := by
  have harg : (((2 * Real.pi * (1 : ℝ) : ℝ) : ℂ) * 2 / ((8 : ℝ) : ℂ))
      = (((Real.pi / 2 : ℝ)) : ℂ) := by
    push_cast
    ring
  have h1 : Complex.exp ((((Real.pi / 2 : ℝ)) : ℂ) * Complex.I) = Complex.I := by
    rw [Complex.exp_mul_I, ← Complex.ofReal_cos, ← Complex.ofReal_sin,
      Real.cos_pi_div_two, Real.sin_pi_div_two]
    simp
  have h2 : Complex.exp (-(((Real.pi / 2 : ℝ)) : ℂ) * Complex.I) = -Complex.I := by
    rw [show -(((Real.pi / 2 : ℝ)) : ℂ) = (((-(Real.pi / 2) : ℝ)) : ℂ) by push_cast; ring]
    rw [Complex.exp_mul_I, ← Complex.ofReal_cos, ← Complex.ofReal_sin,
      Real.cos_neg, Real.sin_neg, Real.cos_pi_div_two, Real.sin_pi_div_two]
    simp
  unfold L_mat
  rw [harg, h1, h2]

lemma S_mat_ex (d : ℝ) :
    S_mat nEx (tEx d) 3 8 = I_mat 3 2 * L_mat 2 d 8 * I_mat 2 1 := by
  unfold S_mat
  have hIco : List.Ico 1 (3 - 1) = [1] := rfl
  rw [hIco]
  simp [nEx, tEx]

lemma S_ex0 : S_mat nEx (tEx 0) 3 8 = !![2/3, 1/3; 1/3, 2/3] := by
  rw [S_mat_ex 0, L_mat_d0, mul_one, I_mat_32, I_mat_21, Matrix.mul_fin_two]
  ext i j
  fin_cases i <;> fin_cases j <;> norm_num

lemma S_ex1 : S_mat nEx (tEx 1) 3 8 =
    !![(-7/12) * Complex.I, (-1/12) * Complex.I;
       (1/12) * Complex.I, (7/12) * Complex.I] := by
  rw [S_mat_ex 1, L_mat_218, I_mat_32, I_mat_21, Matrix.mul_fin_two, Matrix.mul_fin_two]
  ext i j
  fin_cases i <;> fin_cases j <;> (simp; ring)

lemma R_ex0 : R_coeff nEx (tEx 0) 3 8 = 1/4 := by
  unfold R_coeff
  rw [S_ex0]
  have h10 : (!![(2 : ℂ)/3, 1/3; 1/3, 2/3] : Mat2) 1 0 = 1/3 := by simp
  have h00 : (!![(2 : ℂ)/3, 1/3; 1/3, 2/3] : Mat2) 0 0 = 2/3 := by simp
  rw [h10, h00]
  have hz : ((1 : ℂ)/3) / ((2 : ℂ)/3) = ((1/2 : ℝ) : ℂ) := by
    push_cast
    norm_num
  rw [hz, Complex.abs_ofReal, abs_of_pos (by norm_num : (0 : ℝ) < 1/2)]
  norm_num

lemma R_ex1 : R_coeff nEx (tEx 1) 3 8 = 1/49 := by
  unfold R_coeff
  rw [S_ex1]
  have h10 : (!![(-7/12 : ℂ) * Complex.I, (-1/12) * Complex.I;
      (1/12) * Complex.I, (7/12) * Complex.I] : Mat2) 1 0 = (1/12) * Complex.I := by simp
  have h00 : (!![(-7/12 : ℂ) * Complex.I, (-1/12) * Complex.I;
      (1/12) * Complex.I, (7/12) * Complex.I] : Mat2) 0 0 = (-7/12) * Complex.I := by simp
  rw [h10, h00]
  have hz : ((1/12 : ℂ) * Complex.I) / ((-7/12 : ℂ) * Complex.I) = ((-(1/7) : ℝ) : ℂ) := by
    rw [div_eq_iff (mul_ne_zero (by norm_num) Complex.I_ne_zero)]
    push_cast
    ring
  rw [hz, Complex.abs_ofReal, abs_of_neg (by norm_num : (-(1/7) : ℝ) < 0)]
  norm_num

lemma R_glass_three : R_glass 3 = 1/4 := by
  unfold R_glass
  have hz : ((1 : ℂ) - 3) / (1 + 3) = ((-(1/2) : ℝ) : ℂ) := by
    push_cast
    norm_num
  rw [hz, Complex.abs_ofReal, abs_of_neg (by norm_num : (-(1/2) : ℝ) < 0)]
  norm_num

/-! ### Claim C5: which layers the field profile calculator writes -/

/-- C5 counterexample: the claim says a point in the exit layer (the last
index) is never assigned a field value, but the loop runs over
`np.arange(1, len(t))`, which includes the last index. In the 3-layer
stack `t = [0, 10, 10]`, the sample position `x = 15` lies in the exit
layer (`x_mat = 2 = len(t) - 1`) and its field entry is assigned. -/
theorem c5_counterexample :
    fieldAssigned [0, 10, 10] 15 ∧
    x_mat [0, 10, 10] 15 = ([0, 10, 10] : List ℚ).length - 1 := by
  have hx : x_mat [0, 10, 10] 15 = 2 := by
    norm_num [x_mat, cumsum, List.countP_cons, List.countP_nil]
  constructor
  · unfold fieldAssigned fieldLayers
    rw [hx, List.Ico.mem]
    norm_num
  · rw [hx]
    norm_num

/-- C5 (amended): the field profile calculator computes field amplitudes
exactly for sample points assigned to layers `m` with
`1 ≤ m ≤ last index` (the exit layer included); a point assigned to the
incidence layer (index 0) is never assigned a field value. -/
theorem c5_field_assignment (t : List ℚ) (x : ℚ) (ht : t ≠ []) :
    (fieldAssigned t x ↔ 1 ≤ x_mat t x ∧ x_mat t x ≤ t.length - 1) ∧
    (x_mat t x = 0 → ¬ fieldAssigned t x) := by
  have hN : 1 ≤ t.length := List.length_pos.mpr ht
  constructor
  · unfold fieldAssigned fieldLayers
    rw [List.Ico.mem]
    constructor <;> intro h <;> omega
  · intro h0 hA
    unfold fieldAssigned fieldLayers at hA
    rw [List.Ico.mem] at hA
    omega

/-- Witness for `c5_field_assignment` at the concrete stack `[0, 10, 10]`
and position `5` (which lies in layer 1). -/
theorem c5_field_assignment_witness :
    ([0, 10, 10] : List ℚ) ≠ [] ∧
    (fieldAssigned [0, 10, 10] 5 ↔
      1 ≤ x_mat [0, 10, 10] 5 ∧
        x_mat [0, 10, 10] 5 ≤ ([0, 10, 10] : List ℚ).length - 1) :=
  ⟨by decide, (c5_field_assignment [0, 10, 10] 5 (by decide)).1⟩

/-! ### Claim C6: state shared between sweep steps -/

/-- C6 counterexample: the thickness list `t` is mutable state shared
between sweep steps — the claim that no such state exists (beyond the
index table and spectrum) would force the configuration handed to the
next step to equal the initial one; with the script's own configuration
(`thicknesses = [0,110,35,220,7,200]`, `layerVaried = 3`) the state after
the first step (`varyThickness[0] = 0`) already differs from it. -/
theorem c6_counterexample :
    stateAfter [0, 110, 35, 220, 7, 200] 3 [0] ≠ [0, 110, 35, 220, 7, 200] := by
  norm_num [stateAfter, stepConfig]

/-- C6 (amended): although the thickness list is mutated in place and
carried from step to step, each step overwrites the varied entry before
reading, so the configuration a step reads equals the initial
configuration with the varied entry set to that step's value —
independent of the writes of all earlier steps. -/
theorem c6_step_reads_independent (t0 : List ℚ) (lv : ℕ) (vs : List ℚ) (v : ℚ) :
    stepConfig (stateAfter t0 lv vs) lv v = stepConfig t0 lv v := by
  induction vs generalizing t0 with
  | nil => rfl
  | cons w vs ih =>
      have hstep : stateAfter t0 lv (w :: vs) = stateAfter (stepConfig t0 lv w) lv vs := rfl
      rw [hstep, ih]
      simp only [stepConfig]
      rw [List.set_set]

/-! ### Claim C7: length and contents of the thickness sweep -/

/-- C7 counterexample: with `varyStart = 0`, `varyFinish = 7`,
`varyStep = 5` (a step that does not divide the range), the sweep
`np.arange(0, 7 + 5, 5)` has 3 entries `[0, 5, 10]`, not
`floor((7-0)/5) + 1 = 2` as the claim states — and it overshoots
`varyFinish`. -/
theorem c7_counterexample :
    (varyThicknessList 0 7 5).length ≠ (⌊((7 : ℚ) - 0) / 5⌋).toNat + 1 := by
  have h1 : (varyThicknessList 0 7 5).length = 3 := by
    rw [varyThicknessList, arange_length]
    have : ⌈((7 : ℚ) + 5 - 0) / 5⌉ = 3 := by
      rw [Int.ceil_eq_iff]
      constructor <;> norm_num
    rw [this]
    rfl
  have h2 : ⌊((7 : ℚ) - 0) / 5⌋ = 1 := by
    rw [Int.floor_eq_iff]
    constructor <;> norm_num
  rw [h1, h2]
  decide

/-- C7 (amended): for `0 < varyStep` and `varyStart ≤ varyFinish` the
sweep has `⌈(varyFinish - varyStart)/varyStep⌉ + 1` steps and one output
slot per step; when `varyStep` divides the range exactly this equals
`⌊(varyFinish - varyStart)/varyStep⌋ + 1` and both end points are
visited. -/
theorem c7_sweep_length (a b s : ℚ) (hs : 0 < s) (hab : a ≤ b) :
    (varyThicknessList a b s).length = (⌈(b - a) / s⌉).toNat + 1 ∧
    (JscInit (varyThicknessList a b s)).length = (varyThicknessList a b s).length ∧
    (∀ k : ℕ, b - a = (k : ℚ) * s →
      (varyThicknessList a b s).length = (⌊(b - a) / s⌋).toNat + 1 ∧
      a ∈ varyThicknessList a b s ∧ b ∈ varyThicknessList a b s) := by
  have hs0 : s ≠ 0 := ne_of_gt hs
  have key : (b + s - a) / s = (b - a) / s + 1 := by
    field_simp
    ring
  have hnn : 0 ≤ (b - a) / s := div_nonneg (by linarith) hs.le
  have hceil : 0 ≤ ⌈(b - a) / s⌉ := Int.ceil_nonneg hnn
  have hlen : (varyThicknessList a b s).length = (⌈(b - a) / s⌉).toNat + 1 := by
    rw [varyThicknessList, arange_length, key, Int.ceil_add_one]
    omega
  refine ⟨hlen, by simp [JscInit], ?_⟩
  intro k hk
  have hdiv : (b - a) / s = (k : ℚ) := by
    rw [hk]
    field_simp
  have hceilk : ⌈(b - a) / s⌉ = (k : ℤ) := by
    rw [hdiv]; exact_mod_cast Int.ceil_natCast k
  have hfloork : ⌊(b - a) / s⌋ = (k : ℤ) := by
    rw [hdiv]; exact_mod_cast Int.floor_natCast k
  have hmemlen : (⌈(b + s - a) / s⌉).toNat = (⌈(b - a) / s⌉).toNat + 1 := by
    rw [key, Int.ceil_add_one]
    omega
  refine ⟨by rw [hlen, hceilk, hfloork], ?_, ?_⟩
  · have := arange_mem a (b + s) s 0 (by rw [hmemlen]; omega)
    simpa [varyThicknessList] using this
  · have hklt : k < (⌈(b + s - a) / s⌉).toNat := by
      rw [hmemlen, hceilk]
      omega
    have := arange_mem a (b + s) s k hklt
    have heq : a + (k : ℚ) * s = b := by
      have hk' : (k : ℚ) * s = b - a := hk.symm
      linarith
    rw [heq] at this
    simpa [varyThicknessList] using this

/-- Witness for `c7_sweep_length` at the script's configuration
`varyStart = 0`, `varyFinish = 300`, `varyStep = 5` (61 sweep steps). -/
theorem c7_sweep_length_witness :
    (0 : ℚ) < 5 ∧
    (varyThicknessList 0 300 5).length = (⌊((300 : ℚ) - 0) / 5⌋).toNat + 1 ∧
    (300 : ℚ) ∈ varyThicknessList 0 300 5 := by
  have h := (c7_sweep_length 0 300 5 (by norm_num) (by norm_num)).2.2 60 (by norm_num)
  exact ⟨by norm_num, h.1, h.2.2⟩

/-! ### Claim C8: the position → layer mapping -/

/-- C8: every sample position is assigned exactly one layer index; for a
stack of nonnegative thicknesses and a position not beyond the last
cumulative sum, the assigned index (the count of cumulative sums strictly
exceeded by the position) is the first index whose cumulative sum is no
longer exceeded — in particular a position lying exactly on a boundary
goes to the layer whose cumulative interval ends there — and it is a
valid layer index. -/
theorem c8_position_layer (t : List ℚ) (x : ℚ)
    (hpos : ∀ a ∈ t, 0 ≤ a) (hx : ∃ c ∈ cumsum t, x ≤ c) :
    (∃! m : ℕ, x_mat t x = m) ∧
    x_mat t x = (cumsum t).findIdx (fun c => decide (x ≤ c)) ∧
    x_mat t x < t.length := by
  refine ⟨⟨x_mat t x, rfl, fun y hy => hy.symm⟩, ?_, ?_⟩
  · exact sorted_countP_lt_eq_findIdx _ x (cumsum_sorted t hpos) hx
  · unfold x_mat
    rw [← cumsum_length t, List.countP_eq_length_filter]
    obtain ⟨c, hc, hxc⟩ := hx
    exact List.length_filter_lt_length_iff_exists.mpr
      ⟨c, hc, by simp [not_lt.mpr hxc]⟩

/-- Witness for `c8_position_layer` at `t = [0, 2, 3]` and the boundary
position `x = 2` (the cumulative sums are `[0, 2, 5]`; the position is
assigned layer 1, whose cumulative interval ends at 2). -/
theorem c8_position_layer_witness :
    (∀ a ∈ ([0, 2, 3] : List ℚ), 0 ≤ a) ∧
    x_mat [0, 2, 3] 2 = (cumsum [0, 2, 3]).findIdx (fun c => decide ((2 : ℚ) ≤ c)) ∧
    x_mat [0, 2, 3] 2 < ([0, 2, 3] : List ℚ).length := by
  have h := c8_position_layer [0, 2, 3] 2 (by norm_num)
    ⟨2, by norm_num [cumsum], le_refl 2⟩
  exact ⟨by norm_num, h.2.1, h.2.2⟩

/-! ### Claim C10: the wavelength-integration step -/

/-- C10: when the wavelength grid has exactly one entry the integrator
uses a step of exactly 1 (avoiding the `(count - 1) = 0` division);
otherwise (for the strictly increasing grids the script builds) the step
is `(max - min)/(count - 1)` recomputed from the grid values. -/
theorem c10_lambda_step (ls : List ℚ) :
    (ls.length = 1 → effLambdaStep ls = 1) ∧
    (ls.Sorted (· ≤ ·) → 2 ≤ ls.length →
      effLambdaStep ls = (ls.getLastD 0 - ls.headD 0) / ((ls.length : ℚ) - 1)) := by
  constructor
  · intro h
    unfold effLambdaStep
    rw [if_pos h]
  · intro hsorted hlen
    unfold effLambdaStep sortedGrid
    rw [if_neg (by omega), List.Sorted.insertionSort_eq hsorted]

/-- Witness for `c10_lambda_step` at the single-wavelength grid `[500]`
and the two-point grid `[350, 355]`. -/
theorem c10_lambda_step_witness :
    effLambdaStep [500] = 1 ∧
    effLambdaStep [350, 355] =
      (([350, 355] : List ℚ).getLastD 0 - ([350, 355] : List ℚ).headD 0) /
        ((([350, 355] : List ℚ).length : ℚ) - 1) :=
  ⟨(c10_lambda_step [500]).1 (by norm_num),
   (c10_lambda_step [350, 355]).2 (by norm_num [List.sorted_cons]) (by norm_num)⟩

/-! ### Claim C1: the coherent stack solver -/

/-- C1: for every wavelength the solver's system matrix is the interface
matrix between layers 0 and 1 post-multiplied, for each layer `m` strictly
between the first and last (in increasing order), by the propagation
matrix of layer `m` and the interface matrix between `m` and `m + 1`; the
total reflectance is `R = |S[1,0]/S[0,0]|²`. -/
theorem c1_stack_solver (n : ℕ → ℂ) (t : ℕ → ℝ) (N : ℕ) (l : ℝ) :
    S_mat n t N l =
      I_mat (n 0) (n 1) *
        ((List.Ico 1 (N - 1)).map
          (fun m => L_mat (n m) (t m) l * I_mat (n m) (n (m + 1)))).prod ∧
    R_coeff n t N l =
      (Complex.abs (S_mat n t N l 1 0 / S_mat n t N l 0 0)) ^ 2 := by
  refine ⟨?_, rfl⟩
  unfold S_mat
  exact foldl_mul_mul_eq
    (fun m => L_mat (n m) (t m) l) (fun m => I_mat (n m) (n (m + 1)))
    (List.Ico 1 (N - 1)) (I_mat (n 0) (n 1))

/-! ### Claim C2: the interface matrix and the two-layer stack -/

/-- C2: the interface matrix is `[[1, r], [r, 1]]/t` with
`r = (n1-n2)/(n1+n2)` and `t = 2·n1/(n1+n2)`; for equal nonzero indices
it is the identity, and a two-layer stack with identical indices in both
layers has total reflectance 0 at every wavelength. -/
theorem c2_interface_matrix (n1 n2 nn : ℂ) (t : ℕ → ℝ) (l : ℝ)
    (h12 : n1 + n2 ≠ 0) (hnn : nn ≠ 0) :
    I_mat n1 n2 =
      ((2 * n1) / (n1 + n2))⁻¹ •
        !![1, (n1 - n2) / (n1 + n2); (n1 - n2) / (n1 + n2), 1] ∧
    I_mat nn nn = 1 ∧
    R_coeff (fun _ => nn) t 2 l = 0 := by
  have hI : I_mat nn nn = 1 := by
    unfold I_mat
    rw [sub_self, zero_div, ← two_mul, div_self (mul_ne_zero two_ne_zero hnn),
      inv_one, one_smul, Matrix.one_fin_two]
  refine ⟨rfl, hI, ?_⟩
  have hS : S_mat (fun _ => nn) t 2 l = I_mat nn nn := rfl
  unfold R_coeff
  rw [hS, hI]
  have h10 : (1 : Mat2) 1 0 = 0 := Matrix.one_apply_ne (by decide)
  have h00 : (1 : Mat2) 0 0 = 1 := Matrix.one_apply_eq 0
  rw [h10, h00]
  simp

/-- Witness for `c2_interface_matrix` at `n1 = 1`, `n2 = 2`, equal-index
pair `nn = 2`, a two-layer stack, and wavelength 500. -/
theorem c2_interface_matrix_witness :
    I_mat 2 2 = 1 ∧ R_coeff (fun _ => 2) (fun _ => 0) 2 500 = 0 := by
  have h := c2_interface_matrix 1 2 2 (fun _ => 0) 500 (by norm_num) (by norm_num)
  exact ⟨h.2.1, h.2.2⟩

/-! ### Claim C3: the propagation matrix -/

/-- C3: for nonzero wavelength the propagation matrix is
`diag(exp(-i·ξ), exp(+i·ξ))` with `ξ = 2π·d·n/λ`, and a zero-thickness
layer yields exactly the identity matrix. -/
theorem c3_propagation_matrix (n : ℂ) (d l : ℝ) (hl : l ≠ 0) :
    L_mat n d l =
      !![Complex.exp (-(((2 * Real.pi * d : ℝ) : ℂ) * n / (l : ℂ)) * Complex.I), 0;
         0, Complex.exp ((((2 * Real.pi * d : ℝ) : ℂ) * n / (l : ℂ)) * Complex.I)] ∧
    L_mat n 0 l = 1 :=
  ⟨rfl, L_mat_d0 n l⟩

/-- Witness for `c3_propagation_matrix` at `n = 2`, `d = 0`, `λ = 500`. -/
theorem c3_propagation_matrix_witness : L_mat 2 0 500 = 1 :=
  (c3_propagation_matrix 2 0 500 (by norm_num)).2

/-! ### Claim C4: the incoherent substrate correction `T` -/

/-- C4 counterexample: `T` is recomputed inside every sweep step and
changes with the swept thickness. For the stack `nEx = (3, 2, 1)` at
wavelength 8, the middle-layer thicknesses 1 and 0 give
`R = 1/49` and `R = 1/4`, hence different values of
`T = |2/(1+n0)| / sqrt(1 - R_glass·R)`. -/
theorem c4_counterexample : T_coeff nEx (tEx 1) 3 8 ≠ T_coeff nEx (tEx 0) 3 8 := by
  unfold T_coeff
  have hn0 : nEx 0 = 3 := rfl
  rw [hn0, R_glass_three, R_ex0, R_ex1]
  have habs : Complex.abs (2 / (1 + (3 : ℂ))) = 1/2 := by
    have h : (2 / (1 + (3 : ℂ))) = ((1/2 : ℝ) : ℂ) := by
      push_cast
      norm_num
    rw [h, Complex.abs_ofReal, abs_of_pos (by norm_num : (0 : ℝ) < 1/2)]
  rw [habs]
  have h1 : (1 : ℝ) - 1/4 * (1/49) = 195/196 := by norm_num
  have h2 : (1 : ℝ) - 1/4 * (1/4) = 15/16 := by norm_num
  rw [h1, h2]
  intro heq
  have hs1 : (0 : ℝ) < Real.sqrt (195/196) := Real.sqrt_pos.mpr (by norm_num)
  have hs2 : (0 : ℝ) < Real.sqrt (15/16) := Real.sqrt_pos.mpr (by norm_num)
  rw [div_eq_div_iff hs1.ne' hs2.ne'] at heq
  have hsqrt : Real.sqrt (15/16) = Real.sqrt (195/196) :=
    mul_left_cancel₀ (by norm_num : (1/2 : ℝ) ≠ 0) heq
  have hvals : (15/16 : ℝ) = 195/196 :=
    (Real.sqrt_inj (by norm_num) (by norm_num)).mp hsqrt
  norm_num at hvals

/-- C4 (amended): `T_glass` and `R_glass` are functions of the layer-0
index alone, fixed before the sweep; `T`, by contrast, is recomputed at
every sweep step and depends on the thickness configuration exactly
through the coherent reflectance `R` — two thickness configurations give
the same `T` whenever they give the same `R`. -/
theorem c4_transmittance_through_R (n : ℕ → ℂ) (t1 t2 : ℕ → ℝ) (N : ℕ) (l : ℝ)
    (h : R_coeff n t1 N l = R_coeff n t2 N l) :
    T_coeff n t1 N l = T_coeff n t2 N l := by
  unfold T_coeff
  rw [h]

/-- Witness for `c4_transmittance_through_R` at the concrete stack
`nEx`/`tEx 0` against itself. -/
theorem c4_transmittance_through_R_witness :
    T_coeff nEx (tEx 0) 3 8 = T_coeff nEx (tEx 0) 3 8 :=
  c4_transmittance_through_R nEx (tEx 0) (tEx 0) 3 8 rfl

/-! ### Claim C9: behaviour of `I_mat` on a degenerate pairing -/

/-- C9: `I_mat` contains no guard and no error path: at the degenerate
pairing `n1 = 1`, `n2 = -1` (so `n1 + n2 = 0`) it still returns a matrix
— in this exact-arithmetic embedding the division-by-zero junk value `0`
(the float code produces inf/nan entries), not an `InvalidOpticalConstant`
failure. -/
theorem c9_no_guard_eval :
    (1 : ℂ) + (-1) = 0 ∧ I_mat 1 (-1) = (0 : Mat2) := by
  constructor
  · norm_num
  · unfold I_mat
    have h : (1 : ℂ) + (-1) = 0 := by norm_num
    rw [h]
    simp

end TM
